import Mathlib

/-!
Verification of the LWW (last-writer-wins) replicated key-value store in
`main.go`.  The merge engine (`Apply`), the store construction (`NewLWWMap`)
and the gossip key selection (`selectRandomKeys` / the body of `sync`) are
shallowly embedded below; Go's `map[string]Data` is represented as an
association list with the usual set/lookup operations, Go's `Clock` (an
`int`) as `Int`, and Go string comparison as the lexicographic order on
`String`.
-/

/-- Go `type Data struct { Value string; Timestamp Clock }`. -/
structure Data where
  value : String
  timestamp : Int
deriving DecidableEq, Repr

/-- Go `type Patch struct { Key, Value string; Timestamp Clock }`. -/
structure Patch where
  key : String
  value : String
  timestamp : Int
deriving DecidableEq, Repr

/-- The state of one node: Go `LWWMap` restricted to its semantic fields
`store` and `clock` (`mu` is the lock, `nodeID` is only logged, and
`replicas` only feeds the transport layer). -/
structure LWWMap where
  store : List (String × Data)
  clock : Int
deriving DecidableEq, Repr

/-- Go map read `m.store[op.Key]` (with the `exists` flag folded into
`Option`). -/
def storeLookup (s : List (String × Data)) (k : String) : Option Data :=
  match s with
  | [] => none
  | (k', v) :: rest => if k' = k then some v else storeLookup rest k

/-- Go map write `m.store[op.Key] = value`: replace the binding for `k` if
present, otherwise add it. -/
def storeSet (s : List (String × Data)) (k : String) (v : Data) :
    List (String × Data) :=
  match s with
  | [] => [(k, v)]
  | (k', v') :: rest =>
      if k' = k then (k, v) :: rest else (k', v') :: storeSet rest k v

/-- Go `NewLWWMap`: empty store, clock 0. -/
def NewLWWMap : LWWMap := { store := [], clock := 0 }

/-- One iteration of the loop body of Go `Apply` (main.go lines 62-86).
Note the faithful rendering of lines 63-66: `timestamp` is initialised to
`m.clock` and the `op.Timestamp < 0` branch re-assigns the same `m.clock`,
so the stored timestamp is the current clock in every case; the comparisons
on lines 77 and 81 use the raw `op.Timestamp`.  Go's bytewise string
comparison `op.Value > existing.Value` is rendered as the lexicographic
order on the character lists, which is `String`'s own order
(`String.lt_iff_toList_lt`). -/
def applyOne (m : LWWMap) (op : Patch) : LWWMap :=
  let timestamp := m.clock
  let timestamp := if op.timestamp < 0 then m.clock else timestamp
  let value : Data := { value := op.value, timestamp := timestamp }
  let m' :=
    match storeLookup m.store op.key with
    | none =>
        { m with clock := m.clock + 1, store := storeSet m.store op.key value }
    | some existing =>
        if existing.timestamp < op.timestamp then
          { m with clock := m.clock + 1, store := storeSet m.store op.key value }
        else if existing.timestamp = op.timestamp then
          if existing.value.data < op.value.data then
            { m with store := storeSet m.store op.key value, clock := m.clock + 1 }
          else m
        else m
  { m' with clock := max m'.clock op.timestamp }

/-- Go `Apply`: fold the loop body over the batch, in batch order. -/
def Apply (m : LWWMap) (operations : List Patch) : LWWMap :=
  operations.foldl applyOne m

/-- A sequence of `Apply` calls starting from the store `NewLWWMap` builds. -/
def applyAll (batches : List (List Patch)) : LWWMap :=
  batches.foldl Apply NewLWWMap

/-- The gossip key sample, Go `selectRandomKeys` (main.go lines 154-178).
`rand.Shuffle` is abstracted as an explicit `shuffle` argument; theorems
about it assume only that it permutes its input. -/
def selectRandomKeys (m : LWWMap) (k : Int) (shuffle : List String → List String) :
    List String :=
  if k ≤ 0 ∨ m.store.length = 0 then []
  else
    let k' := min k (m.store.length : Int)
    let keys := m.store.map Prod.fst
    if (keys.length : Int) ≤ k' then keys
    else (shuffle keys).take k'.toNat

/-- The batch construction and delivery of one iteration of Go `sync`
(main.go lines 180-211), without the sleep and the HTTP transport: the
sampled keys are read back from the store (a missing key reads Go's zero
`Data`, as `m.store[key]` would) and the resulting batch is handed to a
randomly chosen peer.  `some ops` records that the iteration unconditionally
posts the batch `ops`; `none` would mean the iteration delivers nothing. -/
def syncIteration (m : LWWMap) (shuffle : List String → List String) :
    Option (List Patch) :=
  let selectedKeys := selectRandomKeys m 5 shuffle
  let operations := selectedKeys.map (fun key =>
    match storeLookup m.store key with
    | some data => ({ key := key, value := data.value, timestamp := data.timestamp } : Patch)
    | none => ({ key := key, value := "", timestamp := 0 } : Patch))
  some operations

/-! ### Lemmas about the store representation -/

theorem storeLookup_storeSet_self (s : List (String × Data)) (k : String)
    (v : Data) : storeLookup (storeSet s k v) k = some v := by
  induction s with
  | nil => simp [storeSet, storeLookup]
  | cons hd tl ih =>
      obtain ⟨k', v'⟩ := hd
      by_cases h : k' = k
      · simp [storeSet, storeLookup, h]
      · simp [storeSet, storeLookup, h, ih]

theorem storeLookup_storeSet_ne (s : List (String × Data)) (k k' : String)
    (v : Data) (h : k ≠ k') :
    storeLookup (storeSet s k v) k' = storeLookup s k' := by
  induction s with
  | nil => simp [storeSet, storeLookup, h]
  | cons hd tl ih =>
      obtain ⟨k0, v0⟩ := hd
      by_cases h0 : k0 = k
      · simp [storeSet, storeLookup, h0, h]
      · simp [storeSet, storeLookup, h0, ih]

/-! ### Clock lemmas -/

theorem clock_le_applyOne (m : LWWMap) (op : Patch) :
    m.clock ≤ (applyOne m op).clock := by
  unfold applyOne
  cases storeLookup m.store op.key with
  | none => simp
  | some existing =>
      by_cases h1 : existing.timestamp < op.timestamp
      · simp [h1]
      · by_cases h2 : existing.timestamp = op.timestamp
        · by_cases h3 : existing.value.data < op.value.data
          · simp [h1, h2, h3]
          · simp [h1, h2, h3]
        · simp [h1, h2]

theorem timestamp_le_applyOne (m : LWWMap) (op : Patch) :
    op.timestamp ≤ (applyOne m op).clock := by
  unfold applyOne
  cases storeLookup m.store op.key with
  | none => simp
  | some existing =>
      by_cases h1 : existing.timestamp < op.timestamp
      · simp [h1]
      · by_cases h2 : existing.timestamp = op.timestamp
        · by_cases h3 : existing.value.data < op.value.data
          · simp [h1, h2, h3]
          · simp [h1, h2, h3]
        · simp [h1, h2]

theorem clock_le_Apply (m : LWWMap) (ops : List Patch) :
    m.clock ≤ (Apply m ops).clock := by
  induction ops generalizing m with
  | nil => simp [Apply]
  | cons op rest ih =>
      calc m.clock ≤ (applyOne m op).clock := clock_le_applyOne m op
        _ ≤ (Apply (applyOne m op) rest).clock := ih (applyOne m op)
        _ = (Apply m (op :: rest)).clock := rfl

theorem timestamp_le_Apply (m : LWWMap) (ops : List Patch) (p : Patch)
    (hp : p ∈ ops) : p.timestamp ≤ (Apply m ops).clock := by
  induction ops generalizing m with
  | nil => cases hp
  | cons op rest ih =>
      rcases List.mem_cons.mp hp with h | h
      · subst h
        calc p.timestamp ≤ (applyOne m p).clock := timestamp_le_applyOne m p
          _ ≤ (Apply (applyOne m p) rest).clock := clock_le_Apply _ rest
      · exact ih (applyOne m op) h

theorem clock_le_foldl (m : LWWMap) (batches : List (List Patch)) :
    m.clock ≤ (batches.foldl Apply m).clock := by
  induction batches generalizing m with
  | nil => simp
  | cons b rest ih =>
      calc m.clock ≤ (Apply m b).clock := clock_le_Apply m b
        _ ≤ (rest.foldl Apply (Apply m b)).clock := ih (Apply m b)
        _ = ((b :: rest).foldl Apply m).clock := rfl

theorem timestamp_le_foldl (m : LWWMap) (batches : List (List Patch))
    (b : List Patch) (p : Patch) (hb : b ∈ batches) (hp : p ∈ b) :
    p.timestamp ≤ (batches.foldl Apply m).clock := by
  induction batches generalizing m with
  | nil => cases hb
  | cons b0 rest ih =>
      rcases List.mem_cons.mp hb with h | h
      · subst h
        calc p.timestamp ≤ (Apply m b).clock := timestamp_le_Apply m b p hp
          _ ≤ (rest.foldl Apply (Apply m b)).clock := clock_le_foldl _ rest
      · exact ih (Apply m b0) h

/-! ### The per-key invariant: every stored timestamp is below the clock -/

/-- Every record in the store carries a timestamp strictly below the clock. -/
def StoreInv (m : LWWMap) : Prop :=
  ∀ k d, storeLookup m.store k = some d → d.timestamp < m.clock

theorem lookup_accept_case (m : LWWMap) (op : Patch) (k : String) (d : Data)
    (hk : storeLookup
        (storeSet m.store op.key
          ⟨op.value, if op.timestamp < 0 then m.clock else m.clock⟩) k
        = some d)
    (h : StoreInv m) :
    d.timestamp < max (m.clock + 1) op.timestamp := by
  by_cases hkey : op.key = k
  · subst hkey
    rw [storeLookup_storeSet_self] at hk
    cases hk
    simp only [ite_self]
    omega
  · rw [storeLookup_storeSet_ne _ _ _ _ hkey] at hk
    have := h k d hk
    omega

theorem storeInv_applyOne (m : LWWMap) (op : Patch) (h : StoreInv m) :
    StoreInv (applyOne m op) := by
  intro k d hk
  rcases hl : storeLookup m.store op.key with _ | existing
  · simp only [applyOne, hl] at hk ⊢
    exact lookup_accept_case m op k d hk h
  · by_cases h1 : existing.timestamp < op.timestamp
    · simp only [applyOne, hl, h1, if_true] at hk ⊢
      exact lookup_accept_case m op k d hk h
    · by_cases h2 : existing.timestamp = op.timestamp
      · by_cases h3 : existing.value.data < op.value.data
        · simp only [applyOne, hl, h2, lt_self_iff_false, if_false, if_true,
            h3] at hk ⊢
          exact lookup_accept_case m op k d hk h
        · simp only [applyOne, hl, h2, lt_self_iff_false, if_false, if_true,
            h3] at hk ⊢
          have := h k d hk
          omega
      · simp only [applyOne, hl, h1, h2, if_false] at hk ⊢
        have := h k d hk
        omega

theorem storeInv_Apply (m : LWWMap) (ops : List Patch) (h : StoreInv m) :
    StoreInv (Apply m ops) := by
  induction ops generalizing m with
  | nil => exact h
  | cons op rest ih => exact ih (applyOne m op) (storeInv_applyOne m op h)

theorem storeInv_foldl (m : LWWMap) (batches : List (List Patch))
    (h : StoreInv m) : StoreInv (batches.foldl Apply m) := by
  induction batches generalizing m with
  | nil => exact h
  | cons b rest ih => exact ih (Apply m b) (storeInv_Apply m b h)

theorem storeInv_new : StoreInv NewLWWMap := by
  intro k d hk
  simp [NewLWWMap, storeLookup] at hk

/-! ### Claim theorems -/

/-- C1: idempotence of merge fails on the code.  Applying the batch
`[{key:"a", value:"x", timestamp:5}]` to the fresh store stores the record
`("x", 0)` (the record timestamp is the pre-increment clock, not the patch
timestamp), and applying the same batch a second time overwrites it with
`("x", 5)`: the store after two applications differs from the store after
one. -/
theorem apply_twice_changes_store :
    (Apply NewLWWMap [⟨"a", "x", 5⟩]).store = [("a", ⟨"x", 0⟩)] ∧
    (Apply (Apply NewLWWMap [⟨"a", "x", 5⟩]) [⟨"a", "x", 5⟩]).store
      = [("a", ⟨"x", 5⟩)] := by decide

/-- C2: commutativity of merge fails on the code.  Applying `[P1, P2]` then
`[P3]` (with `P1 = {a,x,3}`, `P2 = {b,y,1}`, `P3 = {c,z,1}`) leaves key `a`
with record `("x", 0)`, while applying `[P3]` then `[P1, P2]` leaves it with
`("x", 1)`: the stored timestamp depends on the clock at application time,
hence on the batch order. -/
theorem apply_order_changes_store :
    storeLookup (Apply (Apply NewLWWMap [⟨"a", "x", 3⟩, ⟨"b", "y", 1⟩])
        [⟨"c", "z", 1⟩]).store "a" = some ⟨"x", 0⟩ ∧
    storeLookup (Apply (Apply NewLWWMap [⟨"c", "z", 1⟩])
        [⟨"a", "x", 3⟩, ⟨"b", "y", 1⟩]).store "a" = some ⟨"x", 1⟩ := by decide

/-- C3: convergence fails on the code.  Two stores both start empty and both
receive the multiset `{ {a,x,5} }`; the second receives the delivery twice
(duplication the claim explicitly allows).  They end in different states:
`a → ("x", 0)` versus `a → ("x", 5)`. -/
theorem duplicated_delivery_diverges :
    storeLookup (applyAll [[⟨"a", "x", 5⟩]]).store "a" = some ⟨"x", 0⟩ ∧
    storeLookup (applyAll [[⟨"a", "x", 5⟩], [⟨"a", "x", 5⟩]]).store "a"
      = some ⟨"x", 5⟩ := by decide

/-- C4: the accept rule does not store the patch's (effective) timestamp.
Applying `[{a,x,5}]` to the empty store yields the record `("x", 0)` — the
pre-increment clock — not `("x", 5)` as the claim requires. -/
theorem accept_stores_clock_not_timestamp :
    storeLookup (Apply NewLWWMap [⟨"a", "x", 5⟩]).store "a" = some ⟨"x", 0⟩ ∧
    storeLookup (Apply NewLWWMap [⟨"a", "x", 5⟩]).store "a" ≠ some ⟨"x", 5⟩ := by
  decide

/-- C5: the negative-timestamp sentinel is not resolved before the
comparison.  Starting from the empty store, the batches `[{b,t,2}]` then
`[{b,u,3}]` reach the state `b → ("u", 2)` with clock 3; the sentinel
`{b,v,-1}` should then resolve to effective timestamp 3 > 2 and be stored,
but the code compares the raw `-1` against 2 and rejects it, leaving the
store unchanged. -/
theorem negative_sentinel_rejected_on_existing_key :
    (applyAll [[⟨"b", "t", 2⟩], [⟨"b", "u", 3⟩]]).store = [("b", ⟨"u", 2⟩)] ∧
    (applyAll [[⟨"b", "t", 2⟩], [⟨"b", "u", 3⟩]]).clock = 3 ∧
    (Apply (applyAll [[⟨"b", "t", 2⟩], [⟨"b", "u", 3⟩]]) [⟨"b", "v", -1⟩]).store
      = [("b", ⟨"u", 2⟩)] := by decide

/-- C6: the tie-break is not order-independent and does not keep the patch
timestamp.  From the empty store, applying `{a,z,5}` then `{a,x,5}` leaves
the lexicographically smaller value `"x"` (the second patch wins because the
first was stored with timestamp 0 < 5), while the opposite order leaves
`"z"`; and in the state `a → ("x", 5)` with clock 6, the tie-break winner
`{a,z,5}` is stored as `("z", 6)`, not `("z", 5)`. -/
theorem tie_break_depends_on_order :
    storeLookup (Apply NewLWWMap [⟨"a", "z", 5⟩, ⟨"a", "x", 5⟩]).store "a"
      = some ⟨"x", 5⟩ ∧
    storeLookup (Apply NewLWWMap [⟨"a", "x", 5⟩, ⟨"a", "z", 5⟩]).store "a"
      = some ⟨"z", 5⟩ ∧
    storeLookup (Apply ⟨[("a", ⟨"x", 5⟩)], 6⟩ [⟨"a", "z", 5⟩]).store "a"
      = some ⟨"z", 6⟩ := by decide

/-- C7: monotonic clock.  The clock never decreases across an `Apply` call,
and after any sequence of `Apply` calls starting from the fresh store the
clock is at least every timestamp ever passed in. -/
theorem clock_monotone_and_dominates :
    (∀ (m : LWWMap) (ops : List Patch), m.clock ≤ (Apply m ops).clock) ∧
    (∀ (batches : List (List Patch)) (b : List Patch) (p : Patch),
      b ∈ batches → p ∈ b → p.timestamp ≤ (applyAll batches).clock) := by
  constructor
  · exact clock_le_Apply
  · intro batches b p hb hp
    exact timestamp_le_foldl NewLWWMap batches b p hb hp

theorem clock_monotone_and_dominates_witness :
    (5 : Int) ≤ (applyAll [[⟨"a", "x", 5⟩]]).clock :=
  clock_monotone_and_dominates.2 [[⟨"a", "x", 5⟩]] [⟨"a", "x", 5⟩]
    ⟨"a", "x", 5⟩ (by simp) (by simp)

/-- C8: stale-write rejection.  A patch whose timestamp is strictly below
the existing record's timestamp leaves the store unchanged and sets the
clock to `max clock timestamp`. -/
theorem stale_write_rejected (m : LWWMap) (op : Patch) (existing : Data)
    (hl : storeLookup m.store op.key = some existing)
    (hts : op.timestamp < existing.timestamp) :
    (Apply m [op]).store = m.store ∧
    (Apply m [op]).clock = max m.clock op.timestamp := by
  have h1 : ¬ existing.timestamp < op.timestamp := by omega
  have h2 : ¬ existing.timestamp = op.timestamp := by omega
  constructor <;> simp [Apply, applyOne, hl, h1, h2]

theorem stale_write_rejected_witness :
    (Apply ⟨[("a", ⟨"x", 5⟩)], 6⟩ [⟨"a", "y", 3⟩]).store = [("a", ⟨"x", 5⟩)] ∧
    (Apply ⟨[("a", ⟨"x", 5⟩)], 6⟩ [⟨"a", "y", 3⟩]).clock = max 6 3 :=
  stale_write_rejected ⟨[("a", ⟨"x", 5⟩)], 6⟩ ⟨"a", "y", 3⟩ ⟨"x", 5⟩
    (by decide) (by decide)

/-- C10: after any sequence of `Apply` calls starting from the store built
by `NewLWWMap`, every record in the store carries a timestamp strictly below
the clock (the stored timestamp is a clock value captured before the clock
is incremented). -/
theorem stored_timestamps_below_clock (batches : List (List Patch))
    (k : String) (d : Data)
    (hk : storeLookup (applyAll batches).store k = some d) :
    d.timestamp < (applyAll batches).clock :=
  storeInv_foldl NewLWWMap batches storeInv_new k d hk

theorem stored_timestamps_below_clock_witness :
    (0 : Int) < (applyAll [[⟨"a", "x", 0⟩]]).clock :=
  stored_timestamps_below_clock [[⟨"a", "x", 0⟩]] "a" ⟨"x", 0⟩ (by decide)

/-! ### Gossip key selection -/

theorem selectRandomKeys_eq_cases (m : LWWMap)
    (shuffle : List String → List String) :
    selectRandomKeys m 5 shuffle =
      if m.store.length = 0 then []
      else if m.store.length ≤ 5 then m.store.map Prod.fst
      else (shuffle (m.store.map Prod.fst)).take 5 := by
  unfold selectRandomKeys
  by_cases h0 : m.store.length = 0
  · simp [h0]
  · by_cases h5 : m.store.length ≤ 5
    · have hc : ((m.store.map Prod.fst).length : Int)
          ≤ min (5 : Int) (m.store.length : Int) := by
        rw [List.length_map]
        omega
      simp [h0, h5, hc]
    · have hc : ¬ ((m.store.map Prod.fst).length : Int)
          ≤ min (5 : Int) (m.store.length : Int) := by
        rw [List.length_map]
        omega
      have hmin : (min (5 : Int) (m.store.length : Int)).toNat = 5 := by
        omega
      simp [h0, h5, hc, hmin]

/-- C9 (amended): each gossip iteration samples at most `K = 5` distinct
keys, without replacement, from the current store — all of them if the store
holds at most 5 — assuming only that the shuffle permutes the key list and
that the store's keys are distinct (Go's map guarantees this).  However, an
empty store does not make the iteration do nothing: the selection is empty
and an empty batch is still built and delivered to the chosen peer. -/
theorem gossip_selection_spec (m : LWWMap) (shuffle : List String → List String)
    (hperm : ∀ l : List String, (shuffle l).Perm l)
    (hnodup : (m.store.map Prod.fst).Nodup) :
    (selectRandomKeys m 5 shuffle).length
        = min 5 (m.store.map Prod.fst).length ∧
    (selectRandomKeys m 5 shuffle).Nodup ∧
    (∀ key ∈ selectRandomKeys m 5 shuffle, key ∈ m.store.map Prod.fst) ∧
    ((m.store.map Prod.fst).length ≤ 5 →
      (selectRandomKeys m 5 shuffle).Perm (m.store.map Prod.fst)) ∧
    (m.store = [] → syncIteration m shuffle = some []) := by
  rw [selectRandomKeys_eq_cases]
  by_cases h0 : m.store.length = 0
  · have hs : m.store = [] := List.length_eq_zero.mp h0
    refine ⟨?_, ?_, ?_, ?_, ?_⟩ <;>
      simp [hs, syncIteration, selectRandomKeys_eq_cases]
  · by_cases h5 : m.store.length ≤ 5
    · have hlen : (m.store.map Prod.fst).length = m.store.length :=
        List.length_map _ _
      refine ⟨?_, ?_, ?_, ?_, ?_⟩
      · simp only [h0, h5, if_true, if_false]
        omega
      · simpa [h0, h5] using hnodup
      · simp [h0, h5]
      · intro _
        simp [h0, h5]
      · intro hs
        exact absurd (by simp [hs]) h0
    · have hlen : (m.store.map Prod.fst).length = m.store.length :=
        List.length_map _ _
      have hshuffle : (shuffle (m.store.map Prod.fst)).length
          = m.store.length := by
        rw [(hperm _).length_eq, hlen]
      refine ⟨?_, ?_, ?_, ?_, ?_⟩
      · simp only [h0, h5, if_true, if_false, List.length_take]
        omega
      · simp only [h0, h5, if_true, if_false]
        exact ((hperm _).nodup_iff.mpr hnodup).sublist (List.take_sublist _ _)
      · simp only [h0, h5, if_true, if_false]
        intro key hkey
        exact (hperm _).subset ((List.take_subset _ _) hkey)
      · intro hc
        omega
      · intro hs
        exact absurd (by simp [hs]) h0

theorem gossip_selection_spec_witness :
    (selectRandomKeys ⟨[("a", ⟨"x", 0⟩)], 1⟩ 5 (fun l => l)).length
      = min 5 ((([("a", ⟨"x", 0⟩)]) : List (String × Data)).map Prod.fst).length :=
  (gossip_selection_spec ⟨[("a", ⟨"x", 0⟩)], 1⟩ (fun l => l)
    (fun l => List.Perm.refl l) (by decide)).1

/-- C9 counterexample: on the empty store a sync iteration does not "do
nothing" — the selection is empty, yet an empty batch is still built and
unconditionally delivered to a randomly chosen peer. -/
theorem empty_store_still_delivers :
    syncIteration ⟨[], 0⟩ (fun l => l) = some [] := by decide
